import Mathlib

/-!
Shallow embedding of the qtstorage repository (src/blocking-queue.h and
src/expiring-storage.h) and verification of its specification claims.

`BlockingQueue` is modelled as a list of items plus the semaphore's counter;
`ExpiringStorage` as association lists for the QMap of items and the QMap of
per-key QTimer pointers.  Timer identity (needed to distinguish "rearm the
existing timer" from "create a second timer", and to express that a cancelled
timer never fires again) is modelled by a natural-number id allocated from a
monotone counter, standing for the QTimer object's address.  The C++ casts
`int(timeout)` and `int(lifetimeMsec)` (qint64 narrowed to signed 32-bit int)
are modelled by `toInt32`.
-/

namespace Qtstorage

/-- Two's-complement narrowing of a 64-bit signed integer to a 32-bit signed
integer, as performed by the C++ casts `int(timeout)` and
`int(lifetimeMsec)`. -/
def toInt32 (x : Int) : Int := (x + 2 ^ 31) % 2 ^ 32 - 2 ^ 31

/-! ## BlockingQueue (src/blocking-queue.h) -/

/-- State of `qtstorage::BlockingQueue<T>`: the QQueue contents (FIFO order,
head first) and the QSemaphore counter.  The QReadWriteLock serialises the
operations; the sequential semantics below is the behaviour of the
lock-serialised atomic operations. -/
structure BlockingQueue (T : Type) where
  items : List T
  semaphore : Nat
deriving DecidableEq, Repr

/-- A freshly constructed queue: empty buffer, semaphore at zero. -/
def BlockingQueue.empty {T : Type} : BlockingQueue T := ⟨[], 0⟩

/-- `BlockingQueue::enqueue`: append the item to the buffer and release one
unit of the semaphore. -/
def BlockingQueue.enqueue {T : Type} (q : BlockingQueue T) (item : T) :
    BlockingQueue T :=
  { items := q.items ++ [item], semaphore := q.semaphore + 1 }

/-- Outcome of a `dequeue` call in the sequential (single-consumer,
no concurrent producer during the wait) semantics: either the call blocks
forever (semaphore empty and an effectively negative timeout), or it returns
a value together with the `ok` flag and the post-state. -/
inductive DequeueOutcome (T : Type) where
  | blocksForever
  | returns (value : T) (ok : Bool) (after : BlockingQueue T)
deriving DecidableEq, Repr

/-- `BlockingQueue::dequeue`: `semaphore.tryAcquire(1, int(timeout))` followed,
on success, by removing the buffer's head.  `QSemaphore::tryAcquire` with a
negative timeout waits indefinitely; with no item and no concurrent producer
that wait never ends, and a non-negative timeout elapses with no item.  The
qint64 `timeout` is narrowed to `int` before the wait. -/
def BlockingQueue.dequeue {T : Type} [Inhabited T] (q : BlockingQueue T)
    (timeout : Int) : DequeueOutcome T :=
  if 0 < q.semaphore then
    DequeueOutcome.returns q.items.headI true
      ⟨q.items.tail, q.semaphore - 1⟩
  else if toInt32 timeout < 0 then
    DequeueOutcome.blocksForever
  else
    DequeueOutcome.returns default false q

/-- `BlockingQueue::size`: the buffer's length. -/
def BlockingQueue.size {T : Type} (q : BlockingQueue T) : Nat := q.items.length

/-- Enqueue a whole list of items, in order. -/
def BlockingQueue.enqueueAll {T : Type} (q : BlockingQueue T) (xs : List T) :
    BlockingQueue T :=
  xs.foldl BlockingQueue.enqueue q

/-- Perform `n` dequeues (with timeout 0) by a single consumer, collecting the
values of the successful ones; stop at the first unsuccessful call. -/
def BlockingQueue.dequeueAll {T : Type} [Inhabited T] :
    BlockingQueue T → Nat → List T
  | _, 0 => []
  | q, n + 1 =>
    match q.dequeue 0 with
    | DequeueOutcome.returns v true q1 => v :: q1.dequeueAll n
    | _ => []

/-- A single client operation on a `BlockingQueue`. -/
inductive QOp (T : Type) where
  | enq (item : T)
  | deq (timeout : Int)
deriving DecidableEq, Repr

/-- Apply one operation; a dequeue that would block forever leaves the state
unchanged (the state is simply never mutated by the blocked call). -/
def applyQOp {T : Type} [Inhabited T] (q : BlockingQueue T) :
    QOp T → BlockingQueue T
  | QOp.enq x => q.enqueue x
  | QOp.deq t =>
    match q.dequeue t with
    | DequeueOutcome.returns _ _ q1 => q1
    | DequeueOutcome.blocksForever => q

/-- Run a sequence of queue operations from a given state. -/
def runQOps {T : Type} [Inhabited T] (q : BlockingQueue T)
    (ops : List (QOp T)) : BlockingQueue T :=
  ops.foldl applyQOp q

/-! ## BlockingQueue lemmas -/

theorem dequeue_pos {T : Type} [Inhabited T] {q : BlockingQueue T}
    (h : 0 < q.semaphore) (timeout : Int) :
    q.dequeue timeout =
      DequeueOutcome.returns q.items.headI true
        ⟨q.items.tail, q.semaphore - 1⟩ := by
  unfold BlockingQueue.dequeue
  rw [if_pos h]

theorem dequeue_empty_neg {T : Type} [Inhabited T] {q : BlockingQueue T}
    (h : q.semaphore = 0) {timeout : Int} (ht : toInt32 timeout < 0) :
    q.dequeue timeout = DequeueOutcome.blocksForever := by
  unfold BlockingQueue.dequeue
  rw [if_neg (by omega), if_pos ht]

theorem dequeue_empty_nonneg {T : Type} [Inhabited T] {q : BlockingQueue T}
    (h : q.semaphore = 0) {timeout : Int} (ht : ¬ toInt32 timeout < 0) :
    q.dequeue timeout = DequeueOutcome.returns default false q := by
  unfold BlockingQueue.dequeue
  rw [if_neg (by omega), if_neg ht]

theorem enqueueAll_eq {T : Type} (xs : List T) :
    ∀ q : BlockingQueue T,
      q.enqueueAll xs = ⟨q.items ++ xs, q.semaphore + xs.length⟩ := by
  induction xs with
  | nil => intro q; simp [BlockingQueue.enqueueAll]
  | cons x xs ih =>
    intro q
    show BlockingQueue.enqueueAll (q.enqueue x) xs = _
    rw [ih]
    simp [BlockingQueue.enqueue, List.append_assoc]
    omega

theorem dequeueAll_eq {T : Type} [Inhabited T] :
    ∀ (l : List T) (q : BlockingQueue T), q.items = l →
      q.semaphore = l.length → q.dequeueAll l.length = l := by
  intro l
  induction l with
  | nil => intro q _ _; rfl
  | cons x rest ih =>
    intro q h1 h2
    have hpos : 0 < q.semaphore := by rw [h2]; simp
    have hd : q.dequeue 0 = DequeueOutcome.returns x true ⟨rest, rest.length⟩ := by
      rw [dequeue_pos hpos, h1, h2]
      simp
    show BlockingQueue.dequeueAll q (rest.length + 1) = x :: rest
    simp only [BlockingQueue.dequeueAll, hd]
    rw [ih ⟨rest, rest.length⟩ rfl rfl]

theorem qInv_applyQOp {T : Type} [Inhabited T] {q : BlockingQueue T}
    (h : q.semaphore = q.items.length) (op : QOp T) :
    (applyQOp q op).semaphore = (applyQOp q op).items.length := by
  cases op with
  | enq x => simp [applyQOp, BlockingQueue.enqueue, h]
  | deq t =>
    show (match q.dequeue t with
      | DequeueOutcome.returns _ _ q1 => q1
      | DequeueOutcome.blocksForever => q).semaphore =
      (match q.dequeue t with
      | DequeueOutcome.returns _ _ q1 => q1
      | DequeueOutcome.blocksForever => q).items.length
    by_cases hpos : 0 < q.semaphore
    · simp only [dequeue_pos hpos]
      simp [List.length_tail, h]
    · have h0 : q.semaphore = 0 := by omega
      by_cases hneg : toInt32 t < 0
      · simp only [dequeue_empty_neg h0 hneg]
        exact h
      · simp only [dequeue_empty_nonneg h0 hneg]
        exact h

theorem qInv_runQOps {T : Type} [Inhabited T] (ops : List (QOp T)) :
    ∀ q : BlockingQueue T, q.semaphore = q.items.length →
      (runQOps q ops).semaphore = (runQOps q ops).items.length := by
  induction ops with
  | nil => intro q h; exact h
  | cons op ops ih =>
    intro q h
    exact ih (applyQOp q op) (qInv_applyQOp h op)

/-- A successful dequeue (`ok = true`) removes exactly the head of a queue
whose semaphore agrees with its buffer. -/
theorem dequeue_returns_head {T : Type} [Inhabited T] {q q2 : BlockingQueue T}
    {t : Int} {v : T} (hinv : q.semaphore = q.items.length)
    (h : q.dequeue t = DequeueOutcome.returns v true q2) :
    q.items = v :: q2.items := by
  by_cases hpos : 0 < q.semaphore
  · rw [dequeue_pos hpos] at h
    cases h
    cases hl : q.items with
    | nil => rw [hl] at hinv; simp at hinv; omega
    | cons y ys => simp [hl]
  · have h0 : q.semaphore = 0 := by omega
    by_cases hneg : toInt32 t < 0
    · rw [dequeue_empty_neg h0 hneg] at h
      cases h
    · rw [dequeue_empty_nonneg h0 hneg] at h
      cases h

/-! ## Association-list model of QMap -/

/-- `QMap::value` / `QMap::find` as an option: the value stored under a key. -/
def alLookup {K A : Type} [DecidableEq K] (k : K) :
    List (K × A) → Option A
  | [] => none
  | (k1, a) :: rest => if k1 = k then some a else alLookup k rest

/-- `QMap::insert`: replace the value under the key if present, else add the
binding. -/
def alInsert {K A : Type} [DecidableEq K] (k : K) (a : A) :
    List (K × A) → List (K × A)
  | [] => [(k, a)]
  | (k1, a1) :: rest =>
    if k1 = k then (k, a) :: rest else (k1, a1) :: alInsert k a rest

/-- `QMap::remove` / `QMap::take`, effect on the map: drop the bindings of the
key. -/
def alErase {K A : Type} [DecidableEq K] (k : K) :
    List (K × A) → List (K × A)
  | [] => []
  | (k1, a1) :: rest =>
    if k1 = k then alErase k rest else (k1, a1) :: alErase k rest

/-- Number of bindings a key has in the map. -/
def alCount {K A : Type} [DecidableEq K] (k : K) : List (K × A) → Nat
  | [] => 0
  | (k1, _) :: rest => (if k1 = k then 1 else 0) + alCount k rest

/-- Keys are pairwise distinct (the QMap representation invariant). -/
def keysOk {K A : Type} [DecidableEq K] : List (K × A) → Prop
  | [] => True
  | (k1, _) :: rest => alLookup k1 rest = none ∧ keysOk rest

/-! ## ExpiringStorage (src/expiring-storage.h) -/

/-- A per-key QTimer, as far as the store's behaviour observes it: its
identity (standing for the object's address) and the duration, already
narrowed to int by `Q_ARG(int, int(lifetimeMsec))`, with which `start` was
last invoked on it. -/
structure Timer where
  id : Nat
  duration : Int
deriving DecidableEq, Repr

/-- State of `qtstorage::ExpiringStorage<K,V>`: the value map `items`, the
timer map `timers`, whether an expiration handler is installed
(`expirationHandler != nullptr`), and the allocator counter for fresh timer
identities. -/
structure ExpiringStorage (K V : Type) where
  items : List (K × V)
  timers : List (K × Timer)
  handlerInstalled : Bool
  nextTimerId : Nat
deriving DecidableEq, Repr

namespace ExpiringStorage

variable {K V : Type} [DecidableEq K] [Inhabited V]

/-- A freshly constructed store: empty maps, no handler installed. -/
def init : ExpiringStorage K V := ⟨[], [], false, 0⟩

/-- `ExpiringStorage::createTimer`: allocate a fresh single-shot timer bound
to the store's context.  The connected timeout lambda is modelled by `fire`
below. -/
def createTimer (s : ExpiringStorage K V) : Timer × ExpiringStorage K V :=
  (⟨s.nextTimerId, 0⟩, { s with nextTimerId := s.nextTimerId + 1 })

/-- `ExpiringStorage::removeTimer`: take the key's timer out of the timer map
(and schedule the QTimer object's deletion, after which it can no longer
fire). -/
def removeTimer (s : ExpiringStorage K V) (k : K) : ExpiringStorage K V :=
  { s with timers := alErase k s.timers }

/-- `ExpiringStorage::watch`: find the key's timer, creating one if none
exists, then invoke `start` on it with `int(lifetimeMsec)` — (re)arming it
for the narrowed duration. -/
def watch (s : ExpiringStorage K V) (k : K) (lifetimeMsec : Int) :
    ExpiringStorage K V :=
  match alLookup k s.timers with
  | some t =>
    { s with timers := alInsert k ⟨t.id, toInt32 lifetimeMsec⟩ s.timers }
  | none =>
    let (t, s1) := createTimer s
    { s1 with timers := alInsert k ⟨t.id, toInt32 lifetimeMsec⟩ s1.timers }

/-- `ExpiringStorage::insert`: upsert the value; if `lifetimeMsec > 0`, arm
the key's timer via `watch`. -/
def insert (s : ExpiringStorage K V) (k : K) (v : V) (lifetimeMsec : Int) :
    ExpiringStorage K V :=
  let s1 := { s with items := alInsert k v s.items }
  if 0 < lifetimeMsec then watch s1 k lifetimeMsec else s1

/-- `ExpiringStorage::remove`: cancel the key's timer, erase the value, and
report whether a value was present (`items.remove(key) > 0`). -/
def remove (s : ExpiringStorage K V) (k : K) : Bool × ExpiringStorage K V :=
  let s1 := removeTimer s k
  ((alLookup k s1.items).isSome,
   { s1 with items := alErase k s1.items })

/-- `ExpiringStorage::take`: cancel the key's timer and `items.take(key)` —
erase and return the value, or a default-constructed `V` if absent. -/
def take (s : ExpiringStorage K V) (k : K) : V × ExpiringStorage K V :=
  let s1 := removeTimer s k
  ((alLookup k s1.items).getD default,
   { s1 with items := alErase k s1.items })

/-- `ExpiringStorage::value`: read-only lookup with a caller-supplied
default. -/
def value (s : ExpiringStorage K V) (k : K) (defaultValue : V) : V :=
  (alLookup k s.items).getD defaultValue

/-- `ExpiringStorage::values`: snapshot of all current values. -/
def values (s : ExpiringStorage K V) : List V := s.items.map Prod.snd

/-- `ExpiringStorage::contains`. -/
def contains (s : ExpiringStorage K V) (k : K) : Bool :=
  (alLookup k s.items).isSome

/-- `ExpiringStorage::size`. -/
def size (s : ExpiringStorage K V) : Nat := s.items.length

/-- `ExpiringStorage::clear`: for each key of the timer map, `removeTimer`;
then clear the item map. -/
def clear (s : ExpiringStorage K V) : ExpiringStorage K V :=
  let s1 := (s.timers.map Prod.fst).foldl removeTimer s
  { s1 with items := [] }

/-- `ExpiringStorage::installExpirationHandler`. -/
def installExpirationHandler (s : ExpiringStorage K V) (installed : Bool) :
    ExpiringStorage K V :=
  { s with handlerInstalled := installed }

/-- The timeout lambda connected in `createTimer`, run when the key's timer
fires: under the write lock, `items.take(key)` and `removeTimer(key)`; after
unlocking, invoke the expiration handler (if installed) with the key and the
taken value.  Returns the post-state and the handler invocation event (key
and value passed to the handler), `none` when no handler runs. -/
def fire (s : ExpiringStorage K V) (k : K) :
    ExpiringStorage K V × Option (K × V) :=
  let v := (alLookup k s.items).getD default
  let s1 := { s with items := alErase k s.items }
  let s2 := removeTimer s1 k
  (s2, if s2.handlerInstalled then some (k, v) else none)

end ExpiringStorage

/-- A single event on an `ExpiringStorage`: a client API call, or the firing
of the timer with identity `tid` for key `k`.  A fire event only has an
effect while that very timer is still the key's armed timer: once
`removeTimer` has taken it out of the map (cancelling it), the event is a
no-op. -/
inductive SOp (K V : Type) where
  | ins (k : K) (v : V) (lifetimeMsec : Int)
  | rem (k : K)
  | tk (k : K)
  | clr
  | installHandler (installed : Bool)
  | fireTimer (k : K) (tid : Nat)
deriving DecidableEq, Repr

/-- Apply one event; the second component is the expiration-handler
invocation the event produced, if any. -/
def applySOp {K V : Type} [DecidableEq K] [Inhabited V]
    (s : ExpiringStorage K V) :
    SOp K V → ExpiringStorage K V × Option (K × V)
  | SOp.ins k v lt => (s.insert k v lt, none)
  | SOp.rem k => ((s.remove k).2, none)
  | SOp.tk k => ((s.take k).2, none)
  | SOp.clr => (s.clear, none)
  | SOp.installHandler b => (s.installExpirationHandler b, none)
  | SOp.fireTimer k tid =>
    match alLookup k s.timers with
    | some t => if t.id = tid then s.fire k else (s, none)
    | none => (s, none)

/-- Run a sequence of events from a given state. -/
def runSOps {K V : Type} [DecidableEq K] [Inhabited V]
    (s : ExpiringStorage K V) (ops : List (SOp K V)) : ExpiringStorage K V :=
  ops.foldl (fun acc op => (applySOp acc op).1) s

/-! ## Association-list lemmas -/

section AListLemmas

variable {K A : Type} [DecidableEq K]

theorem alLookup_alInsert_self (k : K) (a : A) (l : List (K × A)) :
    alLookup k (alInsert k a l) = some a := by
  induction l with
  | nil => simp [alInsert, alLookup]
  | cons p rest ih =>
    obtain ⟨k1, a1⟩ := p
    by_cases h : k1 = k <;> simp [alInsert, alLookup, h, ih]

theorem alLookup_alInsert_ne {k k2 : K} (h : k2 ≠ k) (a : A)
    (l : List (K × A)) : alLookup k2 (alInsert k a l) = alLookup k2 l := by
  induction l with
  | nil => simp [alInsert, alLookup, Ne.symm h]
  | cons p rest ih =>
    obtain ⟨k1, a1⟩ := p
    by_cases h1 : k1 = k
    · subst h1
      simp [alInsert, alLookup, Ne.symm h]
    · simp [alInsert, alLookup, h1, ih]

theorem alLookup_alErase_self (k : K) (l : List (K × A)) :
    alLookup k (alErase k l) = none := by
  induction l with
  | nil => simp [alErase, alLookup]
  | cons p rest ih =>
    obtain ⟨k1, a1⟩ := p
    by_cases h : k1 = k <;> simp [alErase, alLookup, h, ih]

theorem alLookup_alErase_ne {k k2 : K} (h : k2 ≠ k) (l : List (K × A)) :
    alLookup k2 (alErase k l) = alLookup k2 l := by
  induction l with
  | nil => simp [alErase]
  | cons p rest ih =>
    obtain ⟨k1, a1⟩ := p
    by_cases h1 : k1 = k
    · subst h1
      simp [alErase, alLookup, Ne.symm h, ih]
    · simp [alErase, alLookup, h1, ih]

theorem alErase_of_lookup_none {k : K} {l : List (K × A)}
    (h : alLookup k l = none) : alErase k l = l := by
  induction l with
  | nil => rfl
  | cons p rest ih =>
    obtain ⟨k1, a1⟩ := p
    by_cases h1 : k1 = k
    · simp [alLookup, h1] at h
    · simp [alLookup, h1] at h
      simp [alErase, h1, ih h]

theorem mem_alInsert {p : K × A} {k : K} {a : A} {l : List (K × A)}
    (h : p ∈ alInsert k a l) : p = (k, a) ∨ p ∈ l := by
  induction l with
  | nil => simpa [alInsert] using h
  | cons q rest ih =>
    obtain ⟨k1, a1⟩ := q
    by_cases h1 : k1 = k
    · simp [alInsert, h1] at h
      rcases h with h | h
      · exact Or.inl h
      · exact Or.inr (List.mem_cons_of_mem _ h)
    · simp [alInsert, h1] at h
      rcases h with h | h
      · exact Or.inr (by simp [h])
      · rcases ih h with h2 | h2
        · exact Or.inl h2
        · exact Or.inr (List.mem_cons_of_mem _ h2)

theorem mem_alErase {p : K × A} {k : K} {l : List (K × A)}
    (h : p ∈ alErase k l) : p ∈ l ∧ p.1 ≠ k := by
  induction l with
  | nil => simp [alErase] at h
  | cons q rest ih =>
    obtain ⟨k1, a1⟩ := q
    by_cases h1 : k1 = k
    · simp [alErase, h1] at h
      rcases ih h with ⟨h2, h3⟩
      exact ⟨List.mem_cons_of_mem _ h2, h3⟩
    · simp [alErase, h1] at h
      rcases h with h | h
      · refine ⟨by simp [h], ?_⟩
        rw [h]
        exact h1
      · rcases ih h with ⟨h2, h3⟩
        exact ⟨List.mem_cons_of_mem _ h2, h3⟩

theorem keysOk_alInsert {l : List (K × A)} (k : K) (a : A)
    (h : keysOk l) : keysOk (alInsert k a l) := by
  induction l with
  | nil => simp [alInsert, keysOk, alLookup]
  | cons p rest ih =>
    obtain ⟨k1, a1⟩ := p
    rcases h with ⟨hnone, hrest⟩
    by_cases h1 : k1 = k
    · subst h1
      simpa [alInsert, keysOk] using ⟨hnone, hrest⟩
    · have he : alInsert k a ((k1, a1) :: rest) = (k1, a1) :: alInsert k a rest := by
        simp [alInsert, h1]
      rw [he]
      exact ⟨by rw [alLookup_alInsert_ne h1]; exact hnone, ih hrest⟩

theorem keysOk_alErase {l : List (K × A)} (k : K)
    (h : keysOk l) : keysOk (alErase k l) := by
  induction l with
  | nil => simp [alErase, keysOk]
  | cons p rest ih =>
    obtain ⟨k1, a1⟩ := p
    rcases h with ⟨hnone, hrest⟩
    by_cases h1 : k1 = k
    · simp [alErase, h1]
      exact ih hrest
    · have he : alErase k ((k1, a1) :: rest) = (k1, a1) :: alErase k rest := by
        simp [alErase, h1]
      rw [he]
      exact ⟨by rw [alLookup_alErase_ne h1]; exact hnone, ih hrest⟩

theorem alCount_eq_zero {k : K} {l : List (K × A)}
    (h : alLookup k l = none) : alCount k l = 0 := by
  induction l with
  | nil => rfl
  | cons p rest ih =>
    obtain ⟨k1, a1⟩ := p
    by_cases h1 : k1 = k
    · simp [alLookup, h1] at h
    · simp [alLookup, h1] at h
      simp [alCount, h1, ih h]

theorem alCount_le_one {l : List (K × A)} (h : keysOk l) (k : K) :
    alCount k l ≤ 1 := by
  induction l with
  | nil => simp [alCount]
  | cons p rest ih =>
    obtain ⟨k1, a1⟩ := p
    rcases h with ⟨hnone, hrest⟩
    by_cases h1 : k1 = k
    · subst h1
      simp [alCount, alCount_eq_zero hnone]
    · simp [alCount, h1]
      exact ih hrest

end AListLemmas

theorem alLookup_mem {K A : Type} [DecidableEq K] {k : K} {a : A}
    {l : List (K × A)} (h : alLookup k l = some a) : (k, a) ∈ l := by
  induction l with
  | nil => simp [alLookup] at h
  | cons p rest ih =>
    obtain ⟨k1, a1⟩ := p
    by_cases h1 : k1 = k
    · subst h1
      simp [alLookup] at h
      simp [h]
    · simp [alLookup, h1] at h
      exact List.mem_cons_of_mem _ (ih h)

theorem foldl_alErase_eq_nil {K A : Type} [DecidableEq K] :
    ∀ (ks : List K) (l : List (K × A)), (∀ p ∈ l, p.1 ∈ ks) →
      ks.foldl (fun tl k => alErase k tl) l = [] := by
  intro ks
  induction ks with
  | nil =>
    intro l h
    cases l with
    | nil => rfl
    | cons p rest => exact absurd (h p (List.mem_cons_self p rest)) (by simp)
  | cons k ks ih =>
    intro l h
    rw [List.foldl_cons]
    apply ih
    intro p hp
    rcases mem_alErase hp with ⟨hmem, hne⟩
    rcases List.mem_cons.mp (h p hmem) with h2 | h2
    · exact absurd h2 hne
    · exact h2

namespace ExpiringStorage

variable {K V : Type} [DecidableEq K]

/-- `watch` when the key already has a timer: the timer is restarted (same
identity, new narrowed duration); no allocation happens. -/
theorem watch_eq_some {s : ExpiringStorage K V} {k : K} {t : Timer}
    (h : alLookup k s.timers = some t) (lt : Int) :
    s.watch k lt =
      { s with timers := alInsert k ⟨t.id, toInt32 lt⟩ s.timers } := by
  unfold watch
  rw [h]

/-- `watch` when the key has no timer: a fresh timer is created and armed. -/
theorem watch_eq_none {s : ExpiringStorage K V} {k : K}
    (h : alLookup k s.timers = none) (lt : Int) :
    s.watch k lt =
      { s with timers := alInsert k ⟨s.nextTimerId, toInt32 lt⟩ s.timers,
               nextTimerId := s.nextTimerId + 1 } := by
  unfold watch
  rw [h]
  rfl

/-- `insert` with a positive lifetime: upsert, then arm via `watch`. -/
theorem insert_eq_pos {s : ExpiringStorage K V} {k : K} {v : V} {lt : Int}
    (h : 0 < lt) :
    s.insert k v lt =
      ExpiringStorage.watch { s with items := alInsert k v s.items } k lt := by
  unfold ExpiringStorage.insert
  rw [if_pos h]

/-- `insert` with a non-positive lifetime: pure upsert, timers untouched. -/
theorem insert_eq_nonpos {s : ExpiringStorage K V} {k : K} {v : V} {lt : Int}
    (h : ¬ 0 < lt) :
    s.insert k v lt = { s with items := alInsert k v s.items } := by
  unfold ExpiringStorage.insert
  rw [if_neg h]

theorem foldl_removeTimer (ks : List K) :
    ∀ s : ExpiringStorage K V,
      ks.foldl removeTimer s =
        { s with timers := ks.foldl (fun tl k => alErase k tl) s.timers } := by
  induction ks with
  | nil => intro s; rfl
  | cons k ks ih =>
    intro s
    rw [List.foldl_cons, List.foldl_cons, ih]
    rfl

/-- `clear` empties both maps and touches nothing else. -/
theorem clear_eq (s : ExpiringStorage K V) :
    s.clear = ⟨[], [], s.handlerInstalled, s.nextTimerId⟩ := by
  show (let s1 := (s.timers.map Prod.fst).foldl removeTimer s;
        ({ s1 with items := [] } : ExpiringStorage K V)) = _
  rw [foldl_removeTimer]
  rw [foldl_alErase_eq_nil (s.timers.map Prod.fst) s.timers
    (fun p hp => List.mem_map_of_mem Prod.fst hp)]

/-- Representation invariant of reachable store states: both QMaps have
distinct keys, a key with a timer always has a value (a timer never outlives
its entry), and every live timer's identity was allocated by the counter. -/
structure WF (s : ExpiringStorage K V) : Prop where
  itemsOk : keysOk s.items
  timersOk : keysOk s.timers
  coupled : ∀ k, alLookup k s.timers ≠ none → alLookup k s.items ≠ none
  idsBound : ∀ p ∈ s.timers, p.2.id < s.nextTimerId

theorem WF.init : WF (init : ExpiringStorage K V) := by
  refine ⟨trivial, trivial, ?_, ?_⟩
  · intro k h
    exact absurd rfl h
  · intro p hp
    simp [ExpiringStorage.init] at hp

theorem WF.insert {s : ExpiringStorage K V} (h : WF s) (k : K) (v : V)
    (lt : Int) : WF (s.insert k v lt) := by
  have hitems : keysOk (alInsert k v s.items) := keysOk_alInsert k v h.itemsOk
  have hcoup : ∀ k2, alLookup k2 s.timers ≠ none →
      alLookup k2 (alInsert k v s.items) ≠ none := by
    intro k2 ht
    by_cases hk : k2 = k
    · subst hk
      rw [alLookup_alInsert_self]
      simp
    · rw [alLookup_alInsert_ne hk]
      exact h.coupled k2 ht
  have hcoupk : alLookup k (alInsert k v s.items) ≠ none := by
    rw [alLookup_alInsert_self]
    simp
  by_cases hlt : 0 < lt
  · rw [insert_eq_pos hlt]
    cases hfind : alLookup k s.timers with
    | some t =>
      rw [watch_eq_some (s := { s with items := alInsert k v s.items }) hfind]
      refine ⟨hitems, keysOk_alInsert _ _ h.timersOk, ?_, ?_⟩
      · intro k2 ht
        by_cases hk : k2 = k
        · subst hk
          exact hcoupk
        · rw [alLookup_alInsert_ne hk] at ht
          exact hcoup k2 ht
      · intro p hp
        rcases mem_alInsert hp with hpe | hpm
        · subst hpe
          exact h.idsBound (k, t) (alLookup_mem hfind)
        · exact h.idsBound p hpm
    | none =>
      rw [watch_eq_none (s := { s with items := alInsert k v s.items }) hfind]
      refine ⟨hitems, keysOk_alInsert _ _ h.timersOk, ?_, ?_⟩
      · intro k2 ht
        by_cases hk : k2 = k
        · subst hk
          exact hcoupk
        · rw [alLookup_alInsert_ne hk] at ht
          exact hcoup k2 ht
      · intro p hp
        rcases mem_alInsert hp with hpe | hpm
        · subst hpe
          exact Nat.lt_succ_self _
        · exact Nat.lt_succ_of_lt (h.idsBound p hpm)
  · rw [insert_eq_nonpos hlt]
    exact ⟨hitems, h.timersOk, hcoup, h.idsBound⟩

/-- Erasing a key from both maps (the common shape of `remove`, `take` and
the fire lambda) preserves the representation invariant. -/
theorem WF.eraseBoth {s : ExpiringStorage K V} (h : WF s) (k : K) :
    WF { s with items := alErase k s.items, timers := alErase k s.timers } := by
  refine ⟨keysOk_alErase k h.itemsOk, keysOk_alErase k h.timersOk, ?_, ?_⟩
  · intro k2 ht
    by_cases hk : k2 = k
    · subst hk
      rw [alLookup_alErase_self] at ht
      exact absurd rfl ht
    · rw [alLookup_alErase_ne hk] at ht
      rw [alLookup_alErase_ne hk]
      exact h.coupled k2 ht
  · intro p hp
    exact h.idsBound p (mem_alErase hp).1

theorem remove_snd_eq (s : ExpiringStorage K V) (k : K) :
    (s.remove k).2 =
      { s with items := alErase k s.items, timers := alErase k s.timers } :=
  rfl

theorem take_snd_eq [Inhabited V] (s : ExpiringStorage K V) (k : K) :
    (s.take k).2 =
      { s with items := alErase k s.items, timers := alErase k s.timers } :=
  rfl

theorem fire_fst_eq [Inhabited V] (s : ExpiringStorage K V) (k : K) :
    (s.fire k).1 =
      { s with items := alErase k s.items, timers := alErase k s.timers } :=
  rfl

theorem WF.clear {s : ExpiringStorage K V} (_ : WF s) : WF s.clear := by
  rw [clear_eq]
  refine ⟨trivial, trivial, ?_, ?_⟩
  · intro k ht
    exact absurd rfl ht
  · intro p hp
    simp at hp

theorem WF.stepPreserves [Inhabited V] {s : ExpiringStorage K V} (h : WF s)
    (op : SOp K V) : WF (Qtstorage.applySOp s op).1 := by
  cases op with
  | ins k v lt => exact h.insert k v lt
  | rem k =>
    show WF (s.remove k).2
    rw [remove_snd_eq]
    exact h.eraseBoth k
  | tk k =>
    show WF (s.take k).2
    rw [take_snd_eq]
    exact h.eraseBoth k
  | clr => exact h.clear
  | installHandler b => exact ⟨h.itemsOk, h.timersOk, h.coupled, h.idsBound⟩
  | fireTimer k tid =>
    show WF (match alLookup k s.timers with
      | some t => if t.id = tid then s.fire k else (s, none)
      | none => (s, none)).1
    cases alLookup k s.timers with
    | some t =>
      show WF (if t.id = tid then s.fire k else (s, none)).1
      by_cases hid : t.id = tid
      · rw [if_pos hid]
        show WF (s.fire k).1
        rw [fire_fst_eq]
        exact h.eraseBoth k
      · rw [if_neg hid]
        exact h
    | none => exact h

theorem WF.runPreserves [Inhabited V] {s : ExpiringStorage K V} (h : WF s) :
    ∀ ops : List (SOp K V), WF (Qtstorage.runSOps s ops) := by
  intro ops
  induction ops generalizing s with
  | nil => exact h
  | cons op ops ih => exact ih (h.stepPreserves op)

/-- Every state reachable from a fresh store satisfies the representation
invariant. -/
theorem WF.reachable [Inhabited V] (ops : List (SOp K V)) :
    WF (Qtstorage.runSOps (ExpiringStorage.init : ExpiringStorage K V) ops) :=
  WF.runPreserves WF.init ops

/-- All timer identities live in the store (and the allocator counter) are at
least `N`: the invariant that lets us show a timer cancelled by `clear` can
never fire again, since identities allocated afterwards are fresh. -/
def IdsFrom (N : Nat) (s : ExpiringStorage K V) : Prop :=
  N ≤ s.nextTimerId ∧ ∀ p ∈ s.timers, N ≤ p.2.id

theorem IdsFrom.stepKeepsBound [Inhabited V] {N : Nat} {s : ExpiringStorage K V}
    (h : IdsFrom N s) (op : SOp K V) :
    IdsFrom N (Qtstorage.applySOp s op).1 := by
  rcases h with ⟨hnext, hids⟩
  cases op with
  | ins k v lt =>
    show IdsFrom N (s.insert k v lt)
    by_cases hlt : 0 < lt
    · rw [insert_eq_pos hlt]
      cases hfind : alLookup k s.timers with
      | some t =>
        rw [watch_eq_some (s := { s with items := alInsert k v s.items }) hfind]
        refine ⟨hnext, ?_⟩
        intro p hp
        rcases mem_alInsert hp with hpe | hpm
        · subst hpe
          exact hids (k, t) (alLookup_mem hfind)
        · exact hids p hpm
      | none =>
        rw [watch_eq_none (s := { s with items := alInsert k v s.items }) hfind]
        refine ⟨Nat.le_succ_of_le hnext, ?_⟩
        intro p hp
        rcases mem_alInsert hp with hpe | hpm
        · subst hpe
          exact hnext
        · exact hids p hpm
    · rw [insert_eq_nonpos hlt]
      exact ⟨hnext, hids⟩
  | rem k =>
    show IdsFrom N (s.remove k).2
    rw [remove_snd_eq]
    exact ⟨hnext, fun p hp => hids p (mem_alErase hp).1⟩
  | tk k =>
    show IdsFrom N (s.take k).2
    rw [take_snd_eq]
    exact ⟨hnext, fun p hp => hids p (mem_alErase hp).1⟩
  | clr =>
    show IdsFrom N s.clear
    rw [clear_eq]
    exact ⟨hnext, fun p hp => by simp at hp⟩
  | installHandler b => exact ⟨hnext, hids⟩
  | fireTimer k tid =>
    show IdsFrom N (match alLookup k s.timers with
      | some t => if t.id = tid then s.fire k else (s, none)
      | none => (s, none)).1
    cases alLookup k s.timers with
    | some t =>
      show IdsFrom N (if t.id = tid then s.fire k else (s, none)).1
      by_cases hid : t.id = tid
      · rw [if_pos hid]
        show IdsFrom N (s.fire k).1
        rw [fire_fst_eq]
        exact ⟨hnext, fun p hp => hids p (mem_alErase hp).1⟩
      · rw [if_neg hid]
        exact ⟨hnext, hids⟩
    | none => exact ⟨hnext, hids⟩

theorem IdsFrom.runKeepsBound [Inhabited V] {N : Nat} {s : ExpiringStorage K V}
    (h : IdsFrom N s) (ops : List (SOp K V)) :
    IdsFrom N (Qtstorage.runSOps s ops) := by
  induction ops generalizing s with
  | nil => exact h
  | cons op ops ih => exact ih (h.stepKeepsBound op)

theorem IdsFrom.ofClear (s : ExpiringStorage K V) :
    IdsFrom s.nextTimerId s.clear := by
  rw [clear_eq]
  exact ⟨le_refl _, fun p hp => by simp at hp⟩

end ExpiringStorage

/-! ## Claims -/

/-- Claim C1: when a key's armed timer fires, the store removes the key's
value from the map and discards the timer association, and the expiration
handler event — emitted after the exclusive section, only when a handler is
installed — carries the removed key and the value that was in the map at
removal time; the removal is visible to any lookup on the post-state before
the handler runs. -/
theorem C1_fire_removes_then_invokes_handler {K V : Type} [DecidableEq K]
    [Inhabited V] (s : ExpiringStorage K V) (k : K) (t : Timer) (v : V)
    (_ht : alLookup k s.timers = some t)
    (hv : alLookup k s.items = some v) :
    alLookup k (s.fire k).1.items = none ∧
    alLookup k (s.fire k).1.timers = none ∧
    (∀ d : V, (s.fire k).1.value k d = d) ∧
    (s.fire k).1.contains k = false ∧
    (s.fire k).2 = (if s.handlerInstalled then some (k, v) else none) := by
  refine ⟨?_, ?_, ?_, ?_, ?_⟩
  · exact alLookup_alErase_self k s.items
  · exact alLookup_alErase_self k s.timers
  · intro d
    simp [ExpiringStorage.fire, ExpiringStorage.removeTimer,
      ExpiringStorage.value, alLookup_alErase_self]
  · simp [ExpiringStorage.fire, ExpiringStorage.removeTimer,
      ExpiringStorage.contains, alLookup_alErase_self]
  · simp [ExpiringStorage.fire, ExpiringStorage.removeTimer, hv]

/-- Claim C1, witness: a store holding key 1 with value 10 and an armed
timer; firing it removes the entry and hands (1, 10) to the handler. -/
theorem C1_fire_removes_then_invokes_handler_witness :
    alLookup 1 (((((ExpiringStorage.init :
        ExpiringStorage Nat Nat).installExpirationHandler
          true).insert 1 10 50).fire 1).1).items = none ∧
    ((((ExpiringStorage.init :
        ExpiringStorage Nat Nat).installExpirationHandler
          true).insert 1 10 50).fire 1).2 = some (1, 10) := by
  have h := C1_fire_removes_then_invokes_handler
    (((ExpiringStorage.init :
        ExpiringStorage Nat Nat).installExpirationHandler true).insert 1 10 50)
    1 ⟨0, toInt32 50⟩ 10 (by decide) (by decide)
  refine ⟨h.1, ?_⟩
  rw [h.2.2.2.2]
  decide

/-- Claim C2: in every reachable store state a key has at most one timer
entry; inserting an already-watched key with a new positive lifetime rearms
the very timer it had (same identity, new narrowed duration) without
allocating a new one, and afterwards every key still has at most one timer
entry. -/
theorem C2_at_most_one_timer_per_key (ops : List (SOp Nat Nat)) (k : Nat)
    (v : Nat) (lt : Int) (hlt : 0 < lt) (t : Timer)
    (ht : alLookup k (runSOps ExpiringStorage.init ops).timers = some t) :
    alCount k (runSOps ExpiringStorage.init ops).timers ≤ 1 ∧
    alLookup k ((runSOps ExpiringStorage.init ops).insert k v lt).timers =
      some ⟨t.id, toInt32 lt⟩ ∧
    ((runSOps ExpiringStorage.init ops).insert k v lt).nextTimerId =
      (runSOps ExpiringStorage.init ops).nextTimerId ∧
    ∀ k2 : Nat,
      alCount k2 ((runSOps ExpiringStorage.init ops).insert k v lt).timers
        ≤ 1 := by
  have hwf := ExpiringStorage.WF.reachable (V := Nat) ops
  refine ⟨alCount_le_one hwf.timersOk k, ?_, ?_, ?_⟩
  · rw [ExpiringStorage.insert_eq_pos hlt,
      ExpiringStorage.watch_eq_some (s := { runSOps ExpiringStorage.init ops
        with items := alInsert k v (runSOps ExpiringStorage.init ops).items }) ht]
    exact alLookup_alInsert_self k _ _
  · rw [ExpiringStorage.insert_eq_pos hlt,
      ExpiringStorage.watch_eq_some (s := { runSOps ExpiringStorage.init ops
        with items := alInsert k v (runSOps ExpiringStorage.init ops).items }) ht]
  · intro k2
    exact alCount_le_one (hwf.insert k v lt).timersOk k2

/-- Claim C2, witness: re-inserting key 1 (whose timer has identity 0) with
lifetime 100 keeps a single timer entry for key 1, with the same identity and
the new duration. -/
theorem C2_at_most_one_timer_per_key_witness :
    alLookup 1 ((runSOps (ExpiringStorage.init : ExpiringStorage Nat Nat)
        [SOp.ins 1 10 50]).insert 1 11 100).timers =
      some ⟨0, toInt32 100⟩ ∧
    alCount 1 ((runSOps (ExpiringStorage.init : ExpiringStorage Nat Nat)
        [SOp.ins 1 10 50]).insert 1 11 100).timers ≤ 1 := by
  have h := C2_at_most_one_timer_per_key [SOp.ins 1 10 50] 1 11 100
    (by norm_num) ⟨0, toInt32 50⟩ (by decide)
  exact ⟨h.2.1, h.2.2.2 1⟩

/-- Claim C3: after `clear()` the store holds no entries (`size()` is 0) and
no timer association remains; moreover a timer that was pending before the
`clear` never fires afterwards — at any later point its fire event is a
no-op producing no handler invocation, because timers armed after the clear
have fresh identities. -/
theorem C3_clear_empties_and_cancels (ops opsAfter : List (SOp Nat Nat))
    (k : Nat) (t : Timer)
    (ht : alLookup k (runSOps ExpiringStorage.init ops).timers = some t) :
    (runSOps ExpiringStorage.init ops).clear.size = 0 ∧
    (runSOps ExpiringStorage.init ops).clear.timers = [] ∧
    applySOp
      (runSOps (runSOps ExpiringStorage.init ops).clear opsAfter)
      (SOp.fireTimer k t.id) =
      (runSOps (runSOps ExpiringStorage.init ops).clear opsAfter, none) := by
  have hwf := ExpiringStorage.WF.reachable (V := Nat) ops
  have hbound : t.id < (runSOps ExpiringStorage.init ops).nextTimerId :=
    hwf.idsBound (k, t) (alLookup_mem ht)
  have hfrom := ExpiringStorage.IdsFrom.runKeepsBound
    (ExpiringStorage.IdsFrom.ofClear (runSOps ExpiringStorage.init ops))
    opsAfter
  refine ⟨?_, ?_, ?_⟩
  · rw [ExpiringStorage.clear_eq]
    rfl
  · rw [ExpiringStorage.clear_eq]
  · cases hl : alLookup k
        (runSOps (runSOps ExpiringStorage.init ops).clear opsAfter).timers with
    | none => simp [applySOp, hl]
    | some t2 =>
      have hge : (runSOps ExpiringStorage.init ops).nextTimerId ≤ t2.id :=
        hfrom.2 (k, t2) (alLookup_mem hl)
      have hne : t2.id ≠ t.id := by omega
      simp [applySOp, hl, hne]

/-- Claim C3, witness: clear a store holding key 1 with an armed timer of
identity 0; the cleared store is empty and the old timer's fire event later
does nothing. -/
theorem C3_clear_empties_and_cancels_witness :
    (runSOps (ExpiringStorage.init : ExpiringStorage Nat Nat)
        [SOp.ins 1 10 50]).clear.size = 0 ∧
    applySOp
      (runSOps (runSOps (ExpiringStorage.init : ExpiringStorage Nat Nat)
          [SOp.ins 1 10 50]).clear [])
      (SOp.fireTimer 1 0) =
      (runSOps (runSOps (ExpiringStorage.init : ExpiringStorage Nat Nat)
          [SOp.ins 1 10 50]).clear [], none) := by
  have h := C3_clear_empties_and_cancels [SOp.ins 1 10 50] [] 1
    ⟨0, toInt32 50⟩ (by decide)
  exact ⟨h.1, h.2.2⟩

/-- Claim C4: enqueueing any sequence of items onto an initially empty queue
and then performing as many dequeues by a single consumer yields exactly the
enqueued items in enqueue order. -/
theorem C4_fifo_order (xs : List Nat) :
    BlockingQueue.dequeueAll
      (BlockingQueue.enqueueAll BlockingQueue.empty xs) xs.length = xs := by
  rw [enqueueAll_eq xs BlockingQueue.empty]
  exact dequeueAll_eq xs ⟨[] ++ xs, 0 + xs.length⟩ (by simp) (by simp)

/-- Claim C5: inserting a key with lifetime 0 upserts the value but leaves
the timer map — in particular the key's still-armed timer — completely
untouched, and arms nothing new. -/
theorem C5_insert_zero_keeps_timer {K V : Type} [DecidableEq K] [Inhabited V]
    (s : ExpiringStorage K V) (k : K) (v : V) (t : Timer)
    (ht : alLookup k s.timers = some t) :
    (s.insert k v 0).timers = s.timers ∧
    alLookup k (s.insert k v 0).timers = some t ∧
    (s.insert k v 0).nextTimerId = s.nextTimerId ∧
    alLookup k (s.insert k v 0).items = some v := by
  rw [ExpiringStorage.insert_eq_nonpos (by omega)]
  exact ⟨rfl, ht, rfl, alLookup_alInsert_self k v s.items⟩

/-- Claim C5, witness: key 1 is watched (timer identity 0); re-inserting it
with lifetime 0 stores the new value and keeps that timer entry as is. -/
theorem C5_insert_zero_keeps_timer_witness :
    ((runSOps (ExpiringStorage.init : ExpiringStorage Nat Nat)
        [SOp.ins 1 10 50]).insert 1 11 0).timers =
      (runSOps (ExpiringStorage.init : ExpiringStorage Nat Nat)
        [SOp.ins 1 10 50]).timers ∧
    alLookup 1 ((runSOps (ExpiringStorage.init : ExpiringStorage Nat Nat)
        [SOp.ins 1 10 50]).insert 1 11 0).items = some 11 := by
  have h := C5_insert_zero_keeps_timer
    (runSOps (ExpiringStorage.init : ExpiringStorage Nat Nat)
      [SOp.ins 1 10 50]) 1 11 ⟨0, toInt32 50⟩ (by decide)
  exact ⟨h.1, h.2.2.2⟩

/-- Claim C6: on a reachable state, for a key absent from the map `value`
returns the caller-supplied default, `remove` is a no-op returning false and
`take` is a no-op returning a default-constructed value — none of them
changes items or timers; and in any state `remove` returns true exactly when
a value was present. -/
theorem C6_absent_key_noops (ops : List (SOp Nat Nat)) (k : Nat) (d : Nat)
    (habs : alLookup k (runSOps ExpiringStorage.init ops).items = none) :
    (runSOps ExpiringStorage.init ops).value k d = d ∧
    (runSOps ExpiringStorage.init ops).remove k =
      (false, runSOps ExpiringStorage.init ops) ∧
    (runSOps ExpiringStorage.init ops).take k =
      (default, runSOps ExpiringStorage.init ops) ∧
    ∀ (s2 : ExpiringStorage Nat Nat) (k2 : Nat),
      (s2.remove k2).1 = true ↔ alLookup k2 s2.items ≠ none := by
  have hwf := ExpiringStorage.WF.reachable (V := Nat) ops
  have htimer : alLookup k (runSOps ExpiringStorage.init ops).timers = none := by
    by_contra hne
    exact hwf.coupled k hne habs
  have het := alErase_of_lookup_none htimer
  have hei := alErase_of_lookup_none habs
  refine ⟨?_, ?_, ?_, ?_⟩
  · simp [ExpiringStorage.value, habs]
  · simp [ExpiringStorage.remove, ExpiringStorage.removeTimer, het, hei, habs]
  · simp [ExpiringStorage.take, ExpiringStorage.removeTimer, het, hei, habs]
  · intro s2 k2
    simp [ExpiringStorage.remove, ExpiringStorage.removeTimer,
      Option.isSome_iff_ne_none]

/-- Claim C6, witness: key 2 is absent from a store holding only key 1;
`value`, `remove` and `take` on key 2 behave as no-ops, and `remove` on the
present key 1 reports true. -/
theorem C6_absent_key_noops_witness :
    (runSOps (ExpiringStorage.init : ExpiringStorage Nat Nat)
        [SOp.ins 1 10 50]).value 2 7 = 7 ∧
    (runSOps (ExpiringStorage.init : ExpiringStorage Nat Nat)
        [SOp.ins 1 10 50]).remove 2 =
      (false, runSOps (ExpiringStorage.init : ExpiringStorage Nat Nat)
        [SOp.ins 1 10 50]) ∧
    ((runSOps (ExpiringStorage.init : ExpiringStorage Nat Nat)
        [SOp.ins 1 10 50]).remove 1).1 = true := by
  have h := C6_absent_key_noops [SOp.ins 1 10 50] 2 7 (by decide)
  refine ⟨h.1, h.2.1, ?_⟩
  rw [h.2.2.2]
  decide

/-- Claim C7, counterexample: timeout `2^31` is non-negative, the queue is
empty and stays empty, yet `dequeue` does not return `(default, false)` — the
narrowing `int(timeout)` turns `2^31` into a negative wait, so the call
blocks forever. -/
theorem C7_counterexample_large_timeout :
    (0 : Int) ≤ 2 ^ 31 ∧
    BlockingQueue.dequeue (BlockingQueue.empty : BlockingQueue Nat)
      (2 ^ 31) = DequeueOutcome.blocksForever := by
  constructor
  · norm_num
  · rw [dequeue_empty_neg rfl (by norm_num [toInt32])]

/-- Claim C7 as amended: for every timeout whose int-narrowed value is
non-negative (in particular every requested timeout in `[0, 2^31)`), a
dequeue finding no item returns a default-constructed value with `ok =
false`; a dequeue finding an item removes the head and returns it with
`ok = true`; and `ok = false` arises only from the timeout case, with the
state left unchanged. -/
theorem C7_timeout_returns_default_false {T : Type} [Inhabited T]
    (q : BlockingQueue T) (timeout : Int) (hto : 0 ≤ toInt32 timeout) :
    (q.semaphore = 0 →
      q.dequeue timeout = DequeueOutcome.returns default false q) ∧
    (0 < q.semaphore →
      q.dequeue timeout = DequeueOutcome.returns q.items.headI true
        ⟨q.items.tail, q.semaphore - 1⟩) ∧
    ∀ (v : T) (q2 : BlockingQueue T),
      q.dequeue timeout = DequeueOutcome.returns v false q2 →
      q.semaphore = 0 ∧ v = default ∧ q2 = q := by
  refine ⟨fun h0 => dequeue_empty_nonneg h0 (by omega),
          fun hpos => dequeue_pos hpos timeout, ?_⟩
  intro v q2 h
  by_cases hpos : 0 < q.semaphore
  · rw [dequeue_pos hpos] at h
    cases h
  · have h0 : q.semaphore = 0 := by omega
    rw [dequeue_empty_nonneg h0 (by omega)] at h
    cases h
    exact ⟨h0, rfl, rfl⟩

/-- Claim C7 as amended, witness: on an empty queue, timeout 10 (whose
narrowing is still 10) makes `dequeue` return `(default, false)`. -/
theorem C7_timeout_returns_default_false_witness :
    BlockingQueue.dequeue (BlockingQueue.empty : BlockingQueue Nat) 10 =
      DequeueOutcome.returns default false BlockingQueue.empty :=
  (C7_timeout_returns_default_false
    (BlockingQueue.empty : BlockingQueue Nat) 10 (by norm_num [toInt32])).1 rfl

/-- Claim C8: in every state of the queue reachable from empty, the
semaphore's count equals the buffer's length, and a successful dequeue
removes exactly the oldest (head) item. -/
theorem C8_semaphore_equals_length (ops : List (QOp Nat)) :
    (runQOps BlockingQueue.empty ops).semaphore =
      (runQOps BlockingQueue.empty ops).items.length ∧
    ∀ (t : Int) (v : Nat) (q2 : BlockingQueue Nat),
      (runQOps BlockingQueue.empty ops).dequeue t =
        DequeueOutcome.returns v true q2 →
      (runQOps BlockingQueue.empty ops).items = v :: q2.items := by
  have hinv := qInv_runQOps ops BlockingQueue.empty rfl
  exact ⟨hinv, fun t v q2 h => dequeue_returns_head hinv h⟩

/-- Claim C8, witness: after a single enqueue of 5 the successful dequeue
removes exactly that head item. -/
theorem C8_semaphore_equals_length_witness :
    (runQOps BlockingQueue.empty [QOp.enq 5]).items =
      5 :: (⟨[], 0⟩ : BlockingQueue Nat).items :=
  (C8_semaphore_equals_length [QOp.enq 5]).2 0 5 ⟨[], 0⟩ (by decide)

/-- Claim C9: a strictly negative lifetime behaves exactly like lifetime 0 —
the arming condition is `lifetimeMsec > 0`, so the value is upserted, no
timer is created or rearmed, and existing timers are untouched. -/
theorem C9_negative_lifetime_like_zero {K V : Type} [DecidableEq K]
    [Inhabited V] (s : ExpiringStorage K V) (k : K) (v : V) (lt : Int)
    (hneg : lt < 0) :
    s.insert k v lt = s.insert k v 0 ∧
    (s.insert k v lt).timers = s.timers ∧
    (s.insert k v lt).nextTimerId = s.nextTimerId := by
  rw [ExpiringStorage.insert_eq_nonpos (by omega),
    ExpiringStorage.insert_eq_nonpos (by omega)]
  exact ⟨rfl, rfl, rfl⟩

/-- Claim C9, witness: inserting with lifetime -5 equals inserting with
lifetime 0 on a store already watching key 1. -/
theorem C9_negative_lifetime_like_zero_witness :
    (runSOps (ExpiringStorage.init : ExpiringStorage Nat Nat)
        [SOp.ins 1 10 50]).insert 1 11 (-5) =
      (runSOps (ExpiringStorage.init : ExpiringStorage Nat Nat)
        [SOp.ins 1 10 50]).insert 1 11 0 :=
  (C9_negative_lifetime_like_zero
    (runSOps (ExpiringStorage.init : ExpiringStorage Nat Nat)
      [SOp.ins 1 10 50]) 1 11 (-5) (by norm_num)).1

/-- Claim C10: both 64-bit millisecond durations are narrowed to signed
32-bit before use — `toInt32 d` is congruent to `d` modulo `2^32` and lies in
`[-2^31, 2^31)`; an empty queue's dequeue blocks forever exactly when the
narrowed timeout is negative; a positive-lifetime insert arms the key's
timer with the narrowed duration; and the positive input `2^31` narrows to
the negative `-2^31`. -/
theorem C10_duration_narrowed_to_int32 (d : Int) (q : BlockingQueue Nat)
    (s : ExpiringStorage Nat Nat) (k v : Nat) :
    (toInt32 d % 2 ^ 32 = d % 2 ^ 32 ∧
      -(2 ^ 31) ≤ toInt32 d ∧ toInt32 d < 2 ^ 31) ∧
    (q.semaphore = 0 →
      (q.dequeue d = DequeueOutcome.blocksForever ↔ toInt32 d < 0)) ∧
    (0 < d → ∀ t : Timer,
      alLookup k (s.insert k v d).timers = some t →
      t.duration = toInt32 d) ∧
    toInt32 (2 ^ 31) = -(2 ^ 31) := by
  have e31 : (2 : Int) ^ 31 = 2147483648 := by norm_num
  have e32 : (2 : Int) ^ 32 = 4294967296 := by norm_num
  refine ⟨?_, ?_, ?_, ?_⟩
  · unfold toInt32
    rw [e31, e32]
    omega
  · intro h0
    by_cases hneg : toInt32 d < 0
    · rw [dequeue_empty_neg h0 hneg]
      simp [hneg]
    · rw [dequeue_empty_nonneg h0 hneg]
      simp [hneg]
  · intro hpos t htl
    rw [ExpiringStorage.insert_eq_pos hpos] at htl
    cases hfind : alLookup k s.timers with
    | some t0 =>
      rw [ExpiringStorage.watch_eq_some
        (s := { s with items := alInsert k v s.items }) hfind] at htl
      rw [alLookup_alInsert_self] at htl
      cases htl
      rfl
    | none =>
      rw [ExpiringStorage.watch_eq_none
        (s := { s with items := alInsert k v s.items }) hfind] at htl
      rw [alLookup_alInsert_self] at htl
      cases htl
      rfl
  · unfold toInt32
    rw [e31, e32]
    omega

/-- Claim C10, witness: with the requested timeout `2^31`, the empty queue's
dequeue blocks forever, and inserting with lifetime `2^31` arms the timer
with the negative narrowed duration `-2^31`. -/
theorem C10_duration_narrowed_to_int32_witness :
    BlockingQueue.dequeue (BlockingQueue.empty : BlockingQueue Nat) (2 ^ 31) =
      DequeueOutcome.blocksForever ∧
    ∀ t : Timer,
      alLookup 1 (((ExpiringStorage.init :
          ExpiringStorage Nat Nat).insert 1 10 (2 ^ 31))).timers = some t →
      t.duration = toInt32 (2 ^ 31) := by
  have h := C10_duration_narrowed_to_int32 (2 ^ 31)
    (BlockingQueue.empty : BlockingQueue Nat)
    (ExpiringStorage.init : ExpiringStorage Nat Nat) 1 10
  refine ⟨(h.2.1 rfl).mpr ?_, fun t htl => h.2.2.1 (by norm_num) t htl⟩
  rw [h.2.2.2]
  norm_num

end Qtstorage
